import Mathlib

/-!
Verification of the StringPool repository (file `StringPool/StringPool.h`):
a bump-pointer string pool allocator (`StringPool::Allocator`) and the
handle type (`StringPool::String`) it returns.

Modelling choices (shallow embedding):

* `wchar_t` values are modelled as `Nat`; the code treats characters as
  opaque fixed-width unsigned integers and `wmemcmp` compares them
  numerically.
* The heap is a byte-addressed map `Nat → Nat` holding one `wchar_t`
  value per (even) address; pointers are byte addresses and `0` models
  `nullptr` (the default-initialized `m_pNext` / `m_pLimit` / `m_ptr`).
  We fix `sizeof(wchar_t) = 2` and `sizeof(ChunkHeader) = 16`
  (MSVC x64: a `size_t` followed by `wchar_t Chars[1]`, padded to 16).
* `malloc` (the `Allocate` helper, line 315) is modelled by a bump
  counter `freshAddr`: each successful request returns a block disjoint
  from every block handed out before, and `free` neither reuses
  addresses nor changes stored bytes.  A `Bool` argument `mallocOk`
  says whether the provider succeeds on a growth request, so both the
  success path and the out-of-memory path are expressible.
* `AllocMemory` (line 332) retries itself recursively after allocating
  a new chunk.  The model makes the recursion explicit with fuel;
  `AllocMemory` runs with fuel 2 and we prove that fuel 2 always
  suffices (the retried carve against the fresh chunk succeeds), which
  is exactly the depth-at-most-one property of the source.
* The two `throw std::bad_alloc` sites (line 348: request too large,
  line 363: provider failure) are modelled as two distinct error
  results, each carrying the member state at the moment of the throw.
-/

namespace StringPool

/-- Byte size of one `wchar_t` (MSVC: 2). -/
def sizeofWchar : Nat := 2

/-- Byte size of `Allocator::ChunkHeader` (a `size_t` plus `wchar_t Chars[1]`,
padded: 16 on x64). -/
def sizeofChunkHeader : Nat := 16

/-- Constant `kMinChunkSizeInBytes` from the source (line 286):
an allocated chunk must be at least this size, in bytes. -/
def kMinChunkSizeInBytes : Nat := 600000

/-- Constant `kMaxStringLength` from the source (line 289):
ceiling, in `wchar_t` units, checked by `AllocMemory`. -/
def kMaxStringLength : Nat := 1024 * 1024

/-- The class `StringPool::String` (named `PoolString` to avoid the core
`String` type): a raw pointer `m_ptr` (byte address, `0` = `nullptr`) and a
length `m_length` in `wchar_t` units, excluding the terminating NUL. -/
structure PoolString where
  ptr : Nat
  length : Nat
deriving DecidableEq

/-- Method `String::IsEmpty` (line 98): `m_length == 0`. -/
def PoolString.IsEmpty (s : PoolString) : Bool :=
  s.length == 0

/-- Method `String::Length` (line 93). -/
def PoolString.Length (s : PoolString) : Nat :=
  s.length

/-- Method `String::ToStdString` (line 104): a non-empty string reads
`m_length` `wchar_t` values starting at `m_ptr`; an empty string returns the
empty `std::wstring` without touching `m_ptr`.  The heap `mem` stands for the
process memory the raw pointer points into. -/
def ToStdString (mem : Nat → Nat) (s : PoolString) : List Nat :=
  if !s.IsEmpty then
    (List.range s.length).map (fun i => mem (s.ptr + i * sizeofWchar))
  else
    []

/-- The C `wmemcmp`, modelled by its sign (the only thing the source uses):
compares `n` `wchar_t` values starting at byte addresses `a` and `b`. -/
def wmemcmp (mem : Nat → Nat) : Nat → Nat → Nat → Int
  | _, _, 0 => 0
  | a, b, n + 1 =>
    if mem a < mem b then -1
    else if mem b < mem a then 1
    else wmemcmp mem (a + sizeofWchar) (b + sizeofWchar) n

/-- Method `String::Compare` (line 120): `wmemcmp` over the shorter length,
then the length tie-break. -/
def Compare (mem : Nat → Nat) (a other : PoolString) : Int :=
  let minLength := if a.length < other.length then a.length else other.length
  let result := wmemcmp mem a.ptr other.ptr minLength
  if result ≠ 0 then result
  else if a.length < other.length then -1
  else if other.length < a.length then 1
  else 0

/-- Move constructor `String(String&& other)` (line 56): the new object takes
`m_ptr` / `m_length`, the source is left with `nullptr` / `0`.  Returns the
pair (constructed object, source after the move). -/
def moveConstruct (other : PoolString) : PoolString × PoolString :=
  ({ ptr := other.ptr, length := other.length }, { ptr := 0, length := 0 })

/-- Move assignment `String::operator=(String&& other)` (line 65).  The C++
guard `&other != this` is on object identity, which a value-level embedding
cannot observe, so it is made an explicit argument: `sameObject = true` means
`other` and `self` are one object (hence equal values) and the body is
skipped.  Returns the pair (`*this` after, `other` after). -/
def moveAssign (self other : PoolString) (sameObject : Bool) : PoolString × PoolString :=
  if sameObject then (self, other)
  else ({ ptr := other.ptr, length := other.length }, { ptr := 0, length := 0 })

/-- The member state of `StringPool::Allocator` (lines 293-299) plus the
heap and the modelled `malloc` bump counter. -/
structure AllocState where
  mem : Nat → Nat
  pNext : Nat
  pLimit : Nat
  chunks : List (Nat × Nat)
  freshAddr : Nat

/-- A newly constructed `Allocator`: no chunks, null `m_pNext` / `m_pLimit`.
The heap starts all-zero and the provider starts handing out blocks at
address 8 (any nonzero aligned base would do). -/
def initState : AllocState :=
  { mem := fun _ => 0
    pNext := 0
    pLimit := 0
    chunks := []
    freshAddr := 8 }

/-- Result of `Allocator::AllocMemory`: a pointer plus the updated member
state, or one of the two `std::bad_alloc` throws (each carrying the member
state at the throw site), or fuel exhaustion (`diverge`, proven
unreachable). -/
inductive MemResult where
  | ok (ptr : Nat) (st : AllocState)
  | tooLarge (st : AllocState)
  | outOfMem (st : AllocState)
  | diverge

/-- Chunk sizing from `AllocMemory` (lines 352-356):
`length * sizeof(wchar_t) + sizeof(ChunkHeader)`, raised to
`kMinChunkSizeInBytes` when smaller. -/
def growChunkSize (length : Nat) : Nat :=
  let chunkSizeInBytes := length * sizeofWchar + sizeofChunkHeader
  if chunkSizeInBytes < kMinChunkSizeInBytes then kMinChunkSizeInBytes
  else chunkSizeInBytes

/-- Member-state update of the growth path of `AllocMemory` (lines 358-378):
a fresh block of `growChunkSize length` bytes at `freshAddr`, `m_pLimit` one
past its end, `m_pNext` at its data region (one header past the base), the
header (base and recorded `SizeInBytes`) appended to `m_chunks`. -/
def growState (length : Nat) (st : AllocState) : AllocState :=
  { st with
    pLimit := st.freshAddr + growChunkSize length
    pNext := st.freshAddr + sizeofChunkHeader
    chunks := st.chunks ++ [(st.freshAddr, growChunkSize length)]
    freshAddr := st.freshAddr + growChunkSize length }

/-- Method `Allocator::AllocMemory` (line 332) with explicit fuel for the
recursive retry: first try to carve from the current chunk by advancing
`m_pNext`; otherwise reject lengths above `kMaxStringLength`; otherwise grow
by one chunk (failing with `outOfMem` when the provider fails) and retry. -/
def AllocMemoryFuel : Nat → Nat → Bool → AllocState → MemResult
  | 0, _, _, _ => .diverge
  | fuel + 1, length, mallocOk, st =>
    if st.pNext + length * sizeofWchar ≤ st.pLimit then
      .ok st.pNext { st with pNext := st.pNext + length * sizeofWchar }
    else if kMaxStringLength < length then
      .tooLarge st
    else if mallocOk then
      AllocMemoryFuel fuel length mallocOk (growState length st)
    else
      .outOfMem st

/-- `Allocator::AllocMemory` with the fuel fixed at 2; `AllocMemoryFuel_stable`
below shows any fuel of at least 2 gives the same result. -/
def AllocMemory (length : Nat) (mallocOk : Bool) (st : AllocState) : MemResult :=
  AllocMemoryFuel 2 length mallocOk st

/-- The C `wmemcpy` (line 264): stores the `wchar_t` values of `s` at
consecutive even byte addresses starting at `addr`. -/
def writeWchars : (Nat → Nat) → Nat → List Nat → Nat → Nat
  | mem, _, [] => mem
  | mem, addr, c :: rest =>
    writeWchars (fun x => if x = addr then c else mem x) (addr + sizeofWchar) rest

/-- The heap after the body of `AllocString` (lines 264-265): `wmemcpy` of the
`length` characters followed by the store of the terminating NUL (`0`) at
`ptr[length]`. -/
def storeString (mem : Nat → Nat) (ptr : Nat) (s : List Nat) : Nat → Nat :=
  fun a =>
    if a = ptr + s.length * sizeofWchar then 0
    else writeWchars mem ptr s a

/-- Result of `Allocator::AllocString`: a `PoolString` plus the updated
state, or a propagated `AllocMemory` failure. -/
inductive StringResult where
  | ok (str : PoolString) (st : AllocState)
  | tooLarge (st : AllocState)
  | outOfMem (st : AllocState)
  | diverge

/-- Method `Allocator::AllocString(start, finish)` (line 259), taking the
contents of the half-open range `[start, finish)` as the list `s`:
`AllocMemory(length + 1)`, then `wmemcpy` plus the terminating NUL, then the
private `String` constructor over the copied region. -/
def AllocString (s : List Nat) (mallocOk : Bool) (st : AllocState) : StringResult :=
  let length := s.length
  let lengthWithNul := length + 1
  match AllocMemory lengthWithNul mallocOk st with
  | .ok ptr st1 => .ok { ptr := ptr, length := length }
      { st1 with mem := storeString st1.mem ptr s }
  | .tooLarge st1 => .tooLarge st1
  | .outOfMem st1 => .outOfMem st1
  | .diverge => .diverge

/-- Method `Allocator::Clear` (line 233): every chunk is freed and removed,
`m_pNext` and `m_pLimit` are nulled.  Freeing returns storage to the
provider; the modelled provider never reuses addresses and freeing does not
change stored bytes, so `mem` and `freshAddr` are unchanged. -/
def Clear (st : AllocState) : AllocState :=
  { st with chunks := [], pNext := 0, pLimit := 0 }

/-- The observable kind of an `AllocString` outcome. -/
inductive ResultKind where
  | okKind
  | tooLargeKind
  | outOfMemKind
  | divergeKind
deriving DecidableEq

/-- Kind projection of a `StringResult`. -/
def StringResult.kind : StringResult → ResultKind
  | .ok _ _ => .okKind
  | .tooLarge _ => .tooLargeKind
  | .outOfMem _ => .outOfMemKind
  | .diverge => .divergeKind

/-- Modelled from the spec: the standard lexicographic tri-state comparison
of two character sequences (character-wise over the shared prefix,
shorter-is-less tie-break).  This is the refinement target that
`String::Compare` is checked against. -/
def specLexCompare : List Nat → List Nat → Int
  | [], [] => 0
  | [], _ :: _ => -1
  | _ :: _, [] => 1
  | a :: as, b :: bs =>
    if a < b then -1
    else if b < a then 1
    else specLexCompare as bs

/-- The heap `mem` holds the sequence `s` at consecutive `wchar_t` slots
starting at byte address `p`. -/
def ReadsAs (mem : Nat → Nat) (p : Nat) (s : List Nat) : Prop :=
  ∀ i (h : i < s.length), mem (p + i * sizeofWchar) = s.get ⟨i, h⟩

/-- Allocator states reachable through the public interface: a fresh
allocator, any completed `AllocString` call (with either provider outcome;
failed calls leave the state unchanged, see `AllocString_err_state`), and
`Clear`. -/
inductive Reachable : AllocState → Prop
  | init : Reachable initState
  | step {st st' : AllocState} {s : List Nat} {mallocOk : Bool} {h : PoolString} :
      Reachable st → AllocString s mallocOk st = .ok h st' → Reachable st'
  | clearStep {st : AllocState} : Reachable st → Reachable (Clear st)

/-- Structural well-formedness of an allocator state: the cursor is below
the limit, the limit is below the provider frontier, and the free room in
the active chunk never exceeds the data room of a minimum-size chunk. -/
def GoodState (st : AllocState) : Prop :=
  st.pNext ≤ st.pLimit ∧
  st.pLimit ≤ st.freshAddr ∧
  st.pLimit ≤ st.pNext + (kMinChunkSizeInBytes - sizeofChunkHeader)

/-!
Basic lemmas about the heap-writing helpers.
-/

theorem writeWchars_lt (s : List Nat) :
    ∀ (mem : Nat → Nat) (addr a : Nat), a < addr → writeWchars mem addr s a = mem a := by
  induction s with
  | nil => intro mem addr a _; rfl
  | cons c rest ih =>
    intro mem addr a ha
    show writeWchars (fun x => if x = addr then c else mem x) (addr + sizeofWchar) rest a = mem a
    rw [ih _ _ _ (by simp [sizeofWchar]; omega)]
    simp [Nat.ne_of_lt ha]

theorem writeWchars_ge (s : List Nat) :
    ∀ (mem : Nat → Nat) (addr a : Nat),
      addr + s.length * sizeofWchar ≤ a → writeWchars mem addr s a = mem a := by
  induction s with
  | nil => intro mem addr a _; rfl
  | cons c rest ih =>
    intro mem addr a ha
    simp only [List.length_cons, sizeofWchar] at ha
    show writeWchars (fun x => if x = addr then c else mem x) (addr + sizeofWchar) rest a = mem a
    rw [ih _ _ _ (by simp [sizeofWchar]; omega)]
    have : a ≠ addr := by omega
    simp [this]

theorem writeWchars_get (s : List Nat) :
    ∀ (mem : Nat → Nat) (addr i : Nat) (h : i < s.length),
      writeWchars mem addr s (addr + i * sizeofWchar) = s.get ⟨i, h⟩ := by
  induction s with
  | nil => intro mem addr i h; exact absurd h (by simp)
  | cons c rest ih =>
    intro mem addr i h
    cases i with
    | zero =>
      show writeWchars (fun x => if x = addr then c else mem x) (addr + sizeofWchar) rest
          (addr + 0 * sizeofWchar) = c
      rw [writeWchars_lt rest _ _ _ (by simp [sizeofWchar])]
      simp
    | succ j =>
      have hj : j < rest.length := by simpa using h
      have haddr : addr + (j + 1) * sizeofWchar = (addr + sizeofWchar) + j * sizeofWchar := by
        ring
      show writeWchars (fun x => if x = addr then c else mem x) (addr + sizeofWchar) rest
          (addr + (j + 1) * sizeofWchar) = (c :: rest).get ⟨j + 1, h⟩
      rw [haddr, ih _ _ _ hj]
      rfl

theorem storeString_readsAs (mem : Nat → Nat) (ptr : Nat) (s : List Nat) :
    ReadsAs (storeString mem ptr s) ptr s := by
  intro i hi
  unfold storeString
  have hne : ptr + i * sizeofWchar ≠ ptr + s.length * sizeofWchar := by
    simp only [sizeofWchar]
    omega
  rw [if_neg hne, writeWchars_get s mem ptr i hi]

theorem storeString_nul (mem : Nat → Nat) (ptr : Nat) (s : List Nat) :
    storeString mem ptr s (ptr + s.length * sizeofWchar) = 0 := by
  unfold storeString
  rw [if_pos rfl]

theorem storeString_outside (mem : Nat → Nat) (ptr : Nat) (s : List Nat) (a : Nat)
    (h : a < ptr ∨ ptr + (s.length + 1) * sizeofWchar ≤ a) :
    storeString mem ptr s a = mem a := by
  unfold storeString
  have hne : a ≠ ptr + s.length * sizeofWchar := by
    simp only [sizeofWchar] at h ⊢
    omega
  rw [if_neg hne]
  rcases h with h | h
  · exact writeWchars_lt s mem ptr a h
  · exact writeWchars_ge s mem ptr a (by simp only [sizeofWchar] at h ⊢; omega)

theorem ToStdString_of_readsAs (mem : Nat → Nat) (p : Nat) (s : List Nat)
    (h : ReadsAs mem p s) : ToStdString mem { ptr := p, length := s.length } = s := by
  rcases s with _ | ⟨c, rest⟩
  · simp [ToStdString, PoolString.IsEmpty]
  · unfold ToStdString
    rw [if_pos (by simp [PoolString.IsEmpty])]
    apply List.ext_getElem
    · simp
    · intro i h1 h2
      simp only [List.getElem_map, List.getElem_range]
      have := h i (by simpa using h2)
      simpa [List.get_eq_getElem] using this

/-!
Case lemmas for `AllocMemory` and `AllocString`.
-/

theorem growChunkSize_ge (length : Nat) :
    sizeofChunkHeader + length * sizeofWchar ≤ growChunkSize length := by
  unfold growChunkSize
  simp only [sizeofChunkHeader, sizeofWchar, kMinChunkSizeInBytes]
  split <;> omega

theorem growChunkSize_le (length : Nat) :
    growChunkSize length ≤ length * sizeofWchar + kMinChunkSizeInBytes := by
  unfold growChunkSize
  simp only [sizeofChunkHeader, sizeofWchar, kMinChunkSizeInBytes]
  split <;> omega

theorem AllocMemoryFuel_carve (fuel length : Nat) (mallocOk : Bool) (st : AllocState)
    (h : st.pNext + length * sizeofWchar ≤ st.pLimit) :
    AllocMemoryFuel (fuel + 1) length mallocOk st =
      .ok st.pNext { st with pNext := st.pNext + length * sizeofWchar } := by
  unfold AllocMemoryFuel
  rw [if_pos h]

theorem AllocMemoryFuel_tooLarge (fuel length : Nat) (mallocOk : Bool) (st : AllocState)
    (h : ¬ st.pNext + length * sizeofWchar ≤ st.pLimit) (h2 : kMaxStringLength < length) :
    AllocMemoryFuel (fuel + 1) length mallocOk st = .tooLarge st := by
  unfold AllocMemoryFuel
  rw [if_neg h, if_pos h2]

theorem AllocMemoryFuel_outOfMem (fuel length : Nat) (st : AllocState)
    (h : ¬ st.pNext + length * sizeofWchar ≤ st.pLimit) (h2 : ¬ kMaxStringLength < length) :
    AllocMemoryFuel (fuel + 1) length false st = .outOfMem st := by
  unfold AllocMemoryFuel
  rw [if_neg h, if_neg h2]
  rfl

theorem AllocMemoryFuel_grow (fuel length : Nat) (st : AllocState)
    (h : ¬ st.pNext + length * sizeofWchar ≤ st.pLimit) (h2 : ¬ kMaxStringLength < length) :
    AllocMemoryFuel (fuel + 1) length true st =
      AllocMemoryFuel fuel length true (growState length st) := by
  conv_lhs => unfold AllocMemoryFuel
  rw [if_neg h, if_neg h2, if_pos rfl]

theorem growState_carve (length : Nat) (st : AllocState) :
    (growState length st).pNext + length * sizeofWchar ≤ (growState length st).pLimit := by
  have := growChunkSize_ge length
  simp only [growState]
  omega

/-- The state produced by the growth path of `AllocMemory` once the retried
carve has consumed `length` slots from the fresh chunk. -/
def growCarveState (length : Nat) (st : AllocState) : AllocState :=
  { growState length st with
    pNext := (growState length st).pNext + length * sizeofWchar }

theorem AllocMemory_carve (length : Nat) (mallocOk : Bool) (st : AllocState)
    (h : st.pNext + length * sizeofWchar ≤ st.pLimit) :
    AllocMemory length mallocOk st =
      .ok st.pNext { st with pNext := st.pNext + length * sizeofWchar } :=
  AllocMemoryFuel_carve 1 length mallocOk st h

theorem AllocMemory_tooLarge (length : Nat) (mallocOk : Bool) (st : AllocState)
    (h : ¬ st.pNext + length * sizeofWchar ≤ st.pLimit) (h2 : kMaxStringLength < length) :
    AllocMemory length mallocOk st = .tooLarge st :=
  AllocMemoryFuel_tooLarge 1 length mallocOk st h h2

theorem AllocMemory_outOfMem (length : Nat) (st : AllocState)
    (h : ¬ st.pNext + length * sizeofWchar ≤ st.pLimit) (h2 : ¬ kMaxStringLength < length) :
    AllocMemory length false st = .outOfMem st :=
  AllocMemoryFuel_outOfMem 1 length st h h2

theorem AllocMemory_grow (length : Nat) (st : AllocState)
    (h : ¬ st.pNext + length * sizeofWchar ≤ st.pLimit) (h2 : ¬ kMaxStringLength < length) :
    AllocMemory length true st =
      .ok (growState length st).pNext (growCarveState length st) := by
  unfold AllocMemory
  rw [AllocMemoryFuel_grow 1 length st h h2,
    AllocMemoryFuel_carve 0 length true (growState length st) (growState_carve length st)]
  rfl

/-- Full case analysis of a successful `AllocMemory` call. -/
theorem AllocMemory_ok_cases (length : Nat) (mallocOk : Bool) (st : AllocState)
    (ptr : Nat) (st1 : AllocState) (h : AllocMemory length mallocOk st = .ok ptr st1) :
    (st.pNext + length * sizeofWchar ≤ st.pLimit ∧ ptr = st.pNext ∧
      st1 = { st with pNext := st.pNext + length * sizeofWchar }) ∨
    (¬ st.pNext + length * sizeofWchar ≤ st.pLimit ∧ length ≤ kMaxStringLength ∧
      mallocOk = true ∧ ptr = (growState length st).pNext ∧
      st1 = growCarveState length st) := by
  by_cases hc : st.pNext + length * sizeofWchar ≤ st.pLimit
  · left
    rw [AllocMemory_carve length mallocOk st hc] at h
    cases h
    exact ⟨hc, rfl, rfl⟩
  · right
    by_cases h2 : kMaxStringLength < length
    · rw [AllocMemory_tooLarge length mallocOk st hc h2] at h
      cases h
    · cases mallocOk with
      | false => rw [AllocMemory_outOfMem length st hc h2] at h; cases h
      | true =>
        rw [AllocMemory_grow length st hc h2] at h
        cases h
        exact ⟨hc, by omega, rfl, rfl, rfl⟩

/-- `AllocMemory` never runs out of fuel: the retried carve after one growth
step always succeeds. -/
theorem AllocMemory_ne_diverge (length : Nat) (mallocOk : Bool) (st : AllocState) :
    AllocMemory length mallocOk st ≠ .diverge := by
  by_cases hc : st.pNext + length * sizeofWchar ≤ st.pLimit
  · rw [AllocMemory_carve length mallocOk st hc]; intro h; cases h
  · by_cases h2 : kMaxStringLength < length
    · rw [AllocMemory_tooLarge length mallocOk st hc h2]; intro h; cases h
    · cases mallocOk with
      | false => rw [AllocMemory_outOfMem length st hc h2]; intro h; cases h
      | true => rw [AllocMemory_grow length st hc h2]; intro h; cases h

/-!
Lifted case lemmas for `AllocString`.
-/

theorem AllocString_of_mem_ok (s : List Nat) (mallocOk : Bool) (st : AllocState)
    (ptr : Nat) (st1 : AllocState)
    (h : AllocMemory (s.length + 1) mallocOk st = .ok ptr st1) :
    AllocString s mallocOk st =
      .ok { ptr := ptr, length := s.length } { st1 with mem := storeString st1.mem ptr s } := by
  simp only [AllocString, h]

/-- A `tooLarge` outcome of `AllocMemory` leaves the state unchanged and can
only come from the length-ceiling check. -/
theorem AllocMemory_tooLarge_cases (length : Nat) (mallocOk : Bool) (st st1 : AllocState)
    (h : AllocMemory length mallocOk st = .tooLarge st1) :
    st1 = st ∧ ¬ st.pNext + length * sizeofWchar ≤ st.pLimit ∧ kMaxStringLength < length := by
  by_cases hc : st.pNext + length * sizeofWchar ≤ st.pLimit
  · rw [AllocMemory_carve length mallocOk st hc] at h; cases h
  · by_cases h2 : kMaxStringLength < length
    · rw [AllocMemory_tooLarge length mallocOk st hc h2] at h
      cases h
      exact ⟨rfl, hc, h2⟩
    · cases mallocOk with
      | false => rw [AllocMemory_outOfMem length st hc h2] at h; cases h
      | true => rw [AllocMemory_grow length st hc h2] at h; cases h

/-- An `outOfMem` outcome of `AllocMemory` leaves the state unchanged and can
only come from a failed provider request on the growth path. -/
theorem AllocMemory_outOfMem_cases (length : Nat) (mallocOk : Bool) (st st1 : AllocState)
    (h : AllocMemory length mallocOk st = .outOfMem st1) :
    st1 = st ∧ ¬ st.pNext + length * sizeofWchar ≤ st.pLimit ∧
      length ≤ kMaxStringLength ∧ mallocOk = false := by
  by_cases hc : st.pNext + length * sizeofWchar ≤ st.pLimit
  · rw [AllocMemory_carve length mallocOk st hc] at h; cases h
  · by_cases h2 : kMaxStringLength < length
    · rw [AllocMemory_tooLarge length mallocOk st hc h2] at h; cases h
    · cases mallocOk with
      | false =>
        rw [AllocMemory_outOfMem length st hc h2] at h
        cases h
        exact ⟨rfl, hc, by omega, rfl⟩
      | true => rw [AllocMemory_grow length st hc h2] at h; cases h

/-- A failed `AllocString` call leaves the allocator state exactly as it
was: both throw sites in `AllocMemory` fire before any member mutation. -/
theorem AllocString_err_state (s : List Nat) (mallocOk : Bool) (st st' : AllocState)
    (h : AllocString s mallocOk st = .tooLarge st' ∨ AllocString s mallocOk st = .outOfMem st') :
    st' = st := by
  cases hm : AllocMemory (s.length + 1) mallocOk st with
  | ok ptr st1 =>
    simp only [AllocString, hm] at h
    rcases h with h | h <;> cases h
  | tooLarge st1 =>
    simp only [AllocString, hm] at h
    rcases h with h | h
    · cases h
      exact (AllocMemory_tooLarge_cases _ _ _ _ hm).1
    · cases h
  | outOfMem st1 =>
    simp only [AllocString, hm] at h
    rcases h with h | h
    · cases h
    · cases h
      exact (AllocMemory_outOfMem_cases _ _ _ _ hm).1
  | diverge =>
    simp only [AllocString, hm] at h
    rcases h with h | h <;> cases h

/-!
Correctness of `String::Compare` against the lexicographic comparison.
-/

theorem readsAs_cons (mem : Nat → Nat) (p : Nat) (c : Nat) (rest : List Nat)
    (h : ReadsAs mem p (c :: rest)) :
    mem p = c ∧ ReadsAs mem (p + sizeofWchar) rest := by
  constructor
  · have := h 0 (by simp)
    simpa using this
  · intro i hi
    have := h (i + 1) (by simpa using hi)
    have haddr : p + (i + 1) * sizeofWchar = p + sizeofWchar + i * sizeofWchar := by ring
    rw [haddr] at this
    simpa using this

theorem wmemcmp_eq (a : List Nat) :
    ∀ (b : List Nat) (mem : Nat → Nat) (pa pb : Nat),
      ReadsAs mem pa a → ReadsAs mem pb b → a.length = b.length →
      wmemcmp mem pa pb a.length = specLexCompare a b := by
  induction a with
  | nil =>
    intro b mem pa pb _ _ hlen
    have : b = [] := List.eq_nil_of_length_eq_zero hlen.symm
    subst this
    rfl
  | cons x as ih =>
    intro b mem pa pb ha hb hlen
    cases b with
    | nil => simp at hlen
    | cons y bs =>
      obtain ⟨hx, has⟩ := readsAs_cons mem pa x as ha
      obtain ⟨hy, hbs⟩ := readsAs_cons mem pb y bs hb
      show wmemcmp mem pa pb (as.length + 1) = _
      rw [wmemcmp, hx, hy]
      simp only [specLexCompare]
      by_cases hxy : x < y
      · rw [if_pos hxy, if_pos hxy]
      · rw [if_neg hxy, if_neg hxy]
        by_cases hyx : y < x
        · rw [if_pos hyx, if_pos hyx]
        · rw [if_neg hyx, if_neg hyx]
          exact ih bs mem _ _ has hbs (by simpa using hlen)

theorem ReadsAs_take (mem : Nat → Nat) (p : Nat) (s : List Nat) (n : Nat)
    (h : ReadsAs mem p s) : ReadsAs mem p (s.take n) := by
  intro i hi
  have hlt : i < s.length := lt_of_lt_of_le hi (by rw [List.length_take]; omega)
  have := h i hlt
  rw [this]
  simp [List.get_eq_getElem, List.getElem_take]

theorem specLexCompare_short (a : List Nat) :
    ∀ b : List Nat, a.length < b.length →
      specLexCompare a b =
        (if specLexCompare a (b.take a.length) ≠ 0 then specLexCompare a (b.take a.length)
         else -1) := by
  induction a with
  | nil =>
    intro b hlen
    cases b with
    | nil => simp at hlen
    | cons y bs => simp [specLexCompare]
  | cons x as ih =>
    intro b hlen
    cases b with
    | nil => simp at hlen
    | cons y bs =>
      have hlen' : as.length < bs.length := by simpa using hlen
      show specLexCompare (x :: as) (y :: bs) =
        (if specLexCompare (x :: as) (y :: bs.take as.length) ≠ 0 then _ else -1)
      simp only [specLexCompare]
      by_cases hxy : x < y
      · simp [hxy]
      · by_cases hyx : y < x
        · simp [hxy, hyx]
        · simp only [if_neg hxy, if_neg hyx]
          exact ih bs hlen'

theorem specLexCompare_long (b : List Nat) :
    ∀ a : List Nat, b.length < a.length →
      specLexCompare a b =
        (if specLexCompare (a.take b.length) b ≠ 0 then specLexCompare (a.take b.length) b
         else 1) := by
  induction b with
  | nil =>
    intro a hlen
    cases a with
    | nil => simp at hlen
    | cons x as => simp [specLexCompare]
  | cons y bs ih =>
    intro a hlen
    cases a with
    | nil => simp at hlen
    | cons x as =>
      have hlen' : bs.length < as.length := by simpa using hlen
      show specLexCompare (x :: as) (y :: bs) =
        (if specLexCompare (x :: as.take bs.length) (y :: bs) ≠ 0 then _ else 1)
      simp only [specLexCompare]
      by_cases hxy : x < y
      · simp [hxy]
      · by_cases hyx : y < x
        · simp [hxy, hyx]
        · simp only [if_neg hxy, if_neg hyx]
          exact ih as hlen'

theorem Compare_eq_specLexCompare (a b : List Nat) (mem : Nat → Nat) (pa pb : Nat)
    (ha : ReadsAs mem pa a) (hb : ReadsAs mem pb b) :
    Compare mem { ptr := pa, length := a.length } { ptr := pb, length := b.length } =
      specLexCompare a b := by
  simp only [Compare]
  rcases Nat.lt_trichotomy a.length b.length with hlt | heq | hgt
  · rw [if_pos hlt, if_pos hlt]
    have htake : (b.take a.length).length = a.length := by
      simp [List.length_take]
      omega
    have hwm : wmemcmp mem pa pb a.length = specLexCompare a (b.take a.length) :=
      wmemcmp_eq a (b.take a.length) mem pa pb ha
        (ReadsAs_take mem pb b a.length hb) htake.symm
    rw [hwm, specLexCompare_short a b hlt]
  · have hnlt : ¬ a.length < b.length := by omega
    have hngt : ¬ b.length < a.length := by omega
    rw [if_neg hnlt, if_neg hnlt, if_neg hngt, ← heq]
    have hwm : wmemcmp mem pa pb a.length = specLexCompare a b :=
      wmemcmp_eq a b mem pa pb ha hb heq
    rw [hwm]
    by_cases hr0 : specLexCompare a b = 0
    · simp [hr0]
    · simp [hr0]
  · have hnlt : ¬ a.length < b.length := by omega
    rw [if_neg hnlt, if_neg hnlt, if_pos hgt]
    have htake : (a.take b.length).length = b.length := by
      simp [List.length_take]
      omega
    have hwm : wmemcmp mem pa pb b.length = specLexCompare (a.take b.length) b := by
      have := wmemcmp_eq (a.take b.length) b mem pa pb
        (ReadsAs_take mem pa a b.length ha) hb htake
      rw [htake] at this
      exact this
    rw [hwm, specLexCompare_long b a hgt]

/-!
State invariants along the reachable states and memory preservation.
-/

theorem AllocString_ok_cases (s : List Nat) (mallocOk : Bool) (st : AllocState)
    (h : PoolString) (st' : AllocState) (hok : AllocString s mallocOk st = .ok h st') :
    ∃ ptr st1, AllocMemory (s.length + 1) mallocOk st = .ok ptr st1 ∧
      h = { ptr := ptr, length := s.length } ∧
      st' = { st1 with mem := storeString st1.mem ptr s } := by
  cases hm : AllocMemory (s.length + 1) mallocOk st with
  | ok ptr st1 =>
    simp only [AllocString, hm] at hok
    cases hok
    exact ⟨ptr, st1, rfl, rfl, rfl⟩
  | tooLarge st1 => simp only [AllocString, hm] at hok; cases hok
  | outOfMem st1 => simp only [AllocString, hm] at hok; cases hok
  | diverge => simp only [AllocString, hm] at hok; cases hok

theorem AllocString_ok_handle (s : List Nat) (mallocOk : Bool) (st : AllocState)
    (h : PoolString) (st' : AllocState) (hok : AllocString s mallocOk st = .ok h st') :
    h.length = s.length ∧ ReadsAs st'.mem h.ptr s ∧
    st'.mem (h.ptr + s.length * sizeofWchar) = 0 ∧
    h.ptr + (s.length + 1) * sizeofWchar = st'.pNext := by
  obtain ⟨ptr, st1, hm, hh, hst⟩ := AllocString_ok_cases s mallocOk st h st' hok
  subst hh
  subst hst
  refine ⟨rfl, storeString_readsAs st1.mem ptr s, storeString_nul st1.mem ptr s, ?_⟩
  rcases AllocMemory_ok_cases _ _ _ _ _ hm with ⟨_, hp, hs1⟩ | ⟨_, _, _, hp, hs1⟩
  · subst hp
    rw [hs1]
  · subst hp
    rw [hs1]
    rfl

theorem AllocString_succeeds (s : List Nat) (st : AllocState)
    (hlen : s.length + 1 ≤ kMaxStringLength) :
    ∃ h st', AllocString s true st = .ok h st' := by
  by_cases hc : st.pNext + (s.length + 1) * sizeofWchar ≤ st.pLimit
  · exact ⟨_, _, AllocString_of_mem_ok s true st _ _ (AllocMemory_carve (s.length + 1) true st hc)⟩
  · exact ⟨_, _, AllocString_of_mem_ok s true st _ _
      (AllocMemory_grow (s.length + 1) st hc (by omega))⟩

theorem goodState_init : GoodState initState := by
  refine ⟨le_refl 0, ?_, ?_⟩ <;> simp [initState]

theorem goodState_clear (st : AllocState) : GoodState (Clear st) := by
  refine ⟨le_refl 0, ?_, ?_⟩ <;> simp [Clear]

theorem AllocString_ok_good (s : List Nat) (mallocOk : Bool) (st : AllocState)
    (h : PoolString) (st' : AllocState) (hG : GoodState st)
    (hok : AllocString s mallocOk st = .ok h st') : GoodState st' := by
  obtain ⟨ptr, st1, hm, _, hst⟩ := AllocString_ok_cases s mallocOk st h st' hok
  subst hst
  obtain ⟨h1, h2, h3⟩ := hG
  rcases AllocMemory_ok_cases _ _ _ _ _ hm with ⟨hc, _, hs1⟩ | ⟨hc, _, _, _, hs1⟩
  · subst hs1
    exact ⟨hc, h2, by simp only [] at h3 ⊢; omega⟩
  · subst hs1
    have hge := growChunkSize_ge (s.length + 1)
    have hle := growChunkSize_le (s.length + 1)
    simp only [GoodState, growCarveState, growState, kMinChunkSizeInBytes, sizeofChunkHeader,
      sizeofWchar] at hge hle ⊢
    omega

theorem reachable_good (st : AllocState) (h : Reachable st) : GoodState st := by
  induction h with
  | init => exact goodState_init
  | step _ hok ih => exact AllocString_ok_good _ _ _ _ _ ih hok
  | clearStep _ _ => exact goodState_clear _

/-- One successful allocation does not disturb any heap location that lies
strictly below the cursor or in the already-handed-out region beyond the
current chunk, and such locations keep that status afterwards. -/
theorem AllocString_ok_preserves (s : List Nat) (mallocOk : Bool) (st : AllocState)
    (h : PoolString) (st' : AllocState) (hG : GoodState st)
    (hok : AllocString s mallocOk st = .ok h st') (x : Nat)
    (hx : x < st.pNext ∨ (st.pLimit ≤ x ∧ x < st.freshAddr)) :
    st'.mem x = st.mem x ∧
    (x < st'.pNext ∨ (st'.pLimit ≤ x ∧ x < st'.freshAddr)) := by
  obtain ⟨ptr, st1, hm, _, hst⟩ := AllocString_ok_cases s mallocOk st h st' hok
  subst hst
  obtain ⟨h1, h2, _⟩ := hG
  rcases AllocMemory_ok_cases _ _ _ _ _ hm with ⟨hc, hp, hs1⟩ | ⟨hc, _, _, hp, hs1⟩
  · subst hp
    subst hs1
    constructor
    · apply storeString_outside
      rcases hx with hx | hx
      · exact Or.inl hx
      · right
        simp only [sizeofWchar] at hc ⊢
        omega
    · rcases hx with hx | hx
      · left
        show x < st.pNext + (s.length + 1) * sizeofWchar
        omega
      · right
        exact hx
  · subst hp
    subst hs1
    have hge := growChunkSize_ge (s.length + 1)
    constructor
    · apply storeString_outside
      left
      show x < (growState (s.length + 1) st).pNext
      simp only [growState, sizeofChunkHeader] at hge ⊢
      rcases hx with hx | hx <;> omega
    · left
      show x < (growState (s.length + 1) st).pNext + (s.length + 1) * sizeofWchar
      simp only [growState, sizeofChunkHeader] at hge ⊢
      rcases hx with hx | hx <;> omega

/-!
Error-path lifts and derived characterizations.
-/

theorem AllocString_of_mem_tooLarge (s : List Nat) (mallocOk : Bool) (st st1 : AllocState)
    (h : AllocMemory (s.length + 1) mallocOk st = .tooLarge st1) :
    AllocString s mallocOk st = .tooLarge st1 := by
  simp only [AllocString, h]

theorem AllocString_of_mem_outOfMem (s : List Nat) (mallocOk : Bool) (st st1 : AllocState)
    (h : AllocMemory (s.length + 1) mallocOk st = .outOfMem st1) :
    AllocString s mallocOk st = .outOfMem st1 := by
  simp only [AllocString, h]

theorem AllocString_ne_diverge (s : List Nat) (mallocOk : Bool) (st : AllocState) :
    AllocString s mallocOk st ≠ .diverge := by
  cases hm : AllocMemory (s.length + 1) mallocOk st with
  | ok ptr st1 => simp only [AllocString, hm]; intro h; cases h
  | tooLarge st1 => simp only [AllocString, hm]; intro h; cases h
  | outOfMem st1 => simp only [AllocString, hm]; intro h; cases h
  | diverge => exact absurd hm (AllocMemory_ne_diverge _ _ _)

/-- In any structurally well-formed state the active chunk has less free
room than `kMaxStringLength` slots, so an oversized request always reaches
the length check and throws, leaving the state unchanged. -/
theorem AllocString_tooLarge_of_big (s : List Nat) (st : AllocState) (hG : GoodState st)
    (hbig : kMaxStringLength < s.length + 1) :
    AllocString s true st = .tooLarge st := by
  obtain ⟨_, _, h3⟩ := hG
  have hc : ¬ st.pNext + (s.length + 1) * sizeofWchar ≤ st.pLimit := by
    simp only [kMinChunkSizeInBytes, sizeofChunkHeader, sizeofWchar] at h3 ⊢
    simp only [kMaxStringLength] at hbig
    omega
  exact AllocString_of_mem_tooLarge s true st st
    (AllocMemory_tooLarge (s.length + 1) true st hc hbig)

theorem AllocString_tooLarge_cases (s : List Nat) (mallocOk : Bool) (st st' : AllocState)
    (h : AllocString s mallocOk st = .tooLarge st') :
    st' = st ∧ kMaxStringLength < s.length + 1 := by
  cases hm : AllocMemory (s.length + 1) mallocOk st with
  | ok ptr st1 => simp only [AllocString, hm] at h; cases h
  | tooLarge st1 =>
    simp only [AllocString, hm] at h
    cases h
    obtain ⟨h1, _, h2⟩ := AllocMemory_tooLarge_cases _ _ _ _ hm
    exact ⟨h1, h2⟩
  | outOfMem st1 => simp only [AllocString, hm] at h; cases h
  | diverge => simp only [AllocString, hm] at h; cases h

/-- From any state with a null cursor and limit (a fresh allocator, or one
just cleared), `AllocString` produces the same outcome kind as from a newly
constructed allocator. -/
theorem AllocString_kind_null (s : List Nat) (mallocOk : Bool) (st : AllocState)
    (hn : st.pNext = 0) (hl : st.pLimit = 0) :
    (AllocString s mallocOk st).kind = (AllocString s mallocOk initState).kind := by
  have hc1 : ¬ st.pNext + (s.length + 1) * sizeofWchar ≤ st.pLimit := by
    rw [hn, hl]
    simp only [sizeofWchar]
    omega
  have hc2 : ¬ initState.pNext + (s.length + 1) * sizeofWchar ≤ initState.pLimit := by
    simp only [initState, sizeofWchar]
    omega
  by_cases hbig : kMaxStringLength < s.length + 1
  · rw [AllocString_of_mem_tooLarge s mallocOk st st
        (AllocMemory_tooLarge _ mallocOk st hc1 hbig),
      AllocString_of_mem_tooLarge s mallocOk initState initState
        (AllocMemory_tooLarge _ mallocOk initState hc2 hbig)]
    rfl
  · cases mallocOk with
    | false =>
      rw [AllocString_of_mem_outOfMem s false st st
          (AllocMemory_outOfMem _ st hc1 hbig),
        AllocString_of_mem_outOfMem s false initState initState
          (AllocMemory_outOfMem _ initState hc2 hbig)]
      rfl
    | true =>
      rw [AllocString_of_mem_ok s true st _ _ (AllocMemory_grow _ st hc1 hbig),
        AllocString_of_mem_ok s true initState _ _ (AllocMemory_grow _ initState hc2 hbig)]
      rfl

/-- Any fuel of at least 2 computes the same `AllocMemory` result: the
recursion of the source needs depth at most one. -/
theorem AllocMemoryFuel_eq_two (fuel length : Nat) (mallocOk : Bool) (st : AllocState)
    (h : 2 ≤ fuel) :
    AllocMemoryFuel fuel length mallocOk st = AllocMemory length mallocOk st := by
  obtain ⟨f, rfl⟩ : ∃ f, fuel = f + 2 := ⟨fuel - 2, by omega⟩
  by_cases hc : st.pNext + length * sizeofWchar ≤ st.pLimit
  · rw [AllocMemoryFuel_carve (f + 1) length mallocOk st hc,
      AllocMemory_carve length mallocOk st hc]
  · by_cases hbig : kMaxStringLength < length
    · rw [AllocMemoryFuel_tooLarge (f + 1) length mallocOk st hc hbig,
        AllocMemory_tooLarge length mallocOk st hc hbig]
    · cases mallocOk with
      | false =>
        rw [AllocMemoryFuel_outOfMem (f + 1) length st hc hbig,
          AllocMemory_outOfMem length st hc hbig]
      | true =>
        rw [AllocMemoryFuel_grow (f + 1) length st hc hbig,
          AllocMemoryFuel_carve f length true (growState length st) (growState_carve length st),
          AllocMemory_grow length st hc hbig]
        rfl

/-!
The claims.
-/

/-- Claim C1: for every character sequence `s` within the length ceiling
(the allocator accepts requests of up to `kMaxStringLength` slots including
the terminator, so `len(s) + 1 ≤ kMaxStringLength`), `AllocString(s)`
returns a handle whose `ToStdString` equals `s` exactly, whose `Length` is
`len(s)`, and which `IsEmpty` exactly when `s` is empty. -/
theorem c1_roundtrip (s : List Nat) (st : AllocState)
    (hlen : s.length + 1 ≤ kMaxStringLength) :
    ∃ h st', AllocString s true st = .ok h st' ∧
      ToStdString st'.mem h = s ∧ h.Length = s.length ∧
      (h.IsEmpty = true ↔ s = []) := by
  obtain ⟨h, st', hok⟩ := AllocString_succeeds s st hlen
  obtain ⟨hL, hRd, _, _⟩ := AllocString_ok_handle s true st h st' hok
  cases h with
  | mk p l =>
    have hl : l = s.length := hL
    subst hl
    refine ⟨⟨p, s.length⟩, st', hok, ?_, rfl, ?_⟩
    · exact ToStdString_of_readsAs st'.mem p s hRd
    · show (s.length == 0) = true ↔ s = []
      simp [List.length_eq_zero]

theorem c1_roundtrip_witness :
    ([65, 66] : List Nat).length + 1 ≤ kMaxStringLength ∧
    (∃ h st', AllocString [65, 66] true initState = .ok h st' ∧
      ToStdString st'.mem h = [65, 66] ∧ h.Length = ([65, 66] : List Nat).length ∧
      (h.IsEmpty = true ↔ ([65, 66] : List Nat) = [])) :=
  ⟨by decide, c1_roundtrip [65, 66] initState (by decide)⟩

/-- Claim C2, counterexample to the claim as stated: the claim says that
with a never-failing provider every `s` with `len(s) ≤ MaxStringLength`
allocates successfully, but a fresh allocator rejects a string of exactly
`kMaxStringLength` characters with the too-large error (the source checks
`length + 1 > kMaxStringLength` because the terminator slot is counted). -/
theorem c2_claim_counterexample :
    (List.replicate kMaxStringLength (0 : Nat)).length ≤ kMaxStringLength ∧
    AllocString (List.replicate kMaxStringLength (0 : Nat)) true initState =
      .tooLarge initState := by
  constructor
  · simp
  · exact AllocString_tooLarge_of_big _ initState goodState_init (by simp)

/-- Claim C2 as amended: assuming the provider never fails, for every
reachable allocator state `AllocString(s)` fails with the too-large error
if and only if `len(s) + 1 > kMaxStringLength` (the slot count including
the terminator exceeds the ceiling); below that bound it succeeds, and the
failure leaves the state — in particular the chunk list — unchanged,
without attempting to grow. -/
theorem c2_oversize_boundary (s : List Nat) (st : AllocState) (hR : Reachable st) :
    (kMaxStringLength < s.length + 1 → AllocString s true st = .tooLarge st) ∧
    (s.length + 1 ≤ kMaxStringLength → ∃ h st', AllocString s true st = .ok h st') ∧
    (∀ st', AllocString s true st = .tooLarge st' →
      kMaxStringLength < s.length + 1 ∧ st'.chunks = st.chunks) := by
  refine ⟨?_, fun hl => AllocString_succeeds s st hl, ?_⟩
  · intro hbig
    exact AllocString_tooLarge_of_big s st (reachable_good st hR) hbig
  · intro st' h
    obtain ⟨h1, h2⟩ := AllocString_tooLarge_cases s true st st' h
    exact ⟨h2, by rw [h1]⟩

theorem c2_oversize_boundary_witness :
    Reachable initState ∧ ([] : List Nat).length + 1 ≤ kMaxStringLength ∧
    (∃ h st', AllocString ([] : List Nat) true initState = .ok h st') :=
  ⟨.init, by decide, (c2_oversize_boundary [] initState .init).2.1 (by decide)⟩

/-- Claim C8: the invariant `cursor ≤ limit` (`m_pNext ≤ m_pLimit`) holds
in every reachable allocator state — after construction, after every
completed `AllocString` (failed calls leave the state unchanged, see
`AllocString_err_state`), and after `Clear`. -/
theorem c8_cursor_invariant (st : AllocState) (hR : Reachable st) :
    st.pNext ≤ st.pLimit :=
  (reachable_good st hR).1

theorem c8_cursor_invariant_witness :
    Reachable initState ∧ initState.pNext ≤ initState.pLimit :=
  ⟨.init, c8_cursor_invariant initState .init⟩

/-- Claim C9: the recursive carve-then-grow sequence of `AllocMemory` needs
recursion depth at most one: fuel 2 computes the fixed point (any larger
fuel gives the same result) and the fuel-2 run never exhausts its fuel,
because the retried carve against the fresh chunk — sized
`max(kMinChunkSizeInBytes, neededSlots * sizeof(wchar_t) + header)` —
always succeeds. -/
theorem c9_retry_depth_one (fuel length : Nat) (mallocOk : Bool) (st : AllocState)
    (h : 2 ≤ fuel) :
    AllocMemoryFuel fuel length mallocOk st = AllocMemory length mallocOk st ∧
    AllocMemory length mallocOk st ≠ .diverge :=
  ⟨AllocMemoryFuel_eq_two fuel length mallocOk st h,
   AllocMemory_ne_diverge length mallocOk st⟩

theorem c9_retry_depth_one_witness :
    2 ≤ 3 ∧
    (AllocMemoryFuel 3 7 true initState = AllocMemory 7 true initState ∧
     AllocMemory 7 true initState ≠ .diverge) :=
  ⟨by decide, c9_retry_depth_one 3 7 true initState (by decide)⟩

/-- Claim C10: move-assigning a handle to itself (the `&other == this`
case, `sameObject = true`) performs no transfer and leaves the handle
completely unchanged — same pointer, same length, not emptied. -/
theorem c10_self_move_assign (h : PoolString) :
    moveAssign h h true = (h, h) :=
  rfl

/-- Claim C3: for every pair of sequences within the length ceiling,
allocating both from the same allocator and comparing the handles with
`String::Compare` gives exactly the standard lexicographic tri-state
comparison of the sequences (character-wise over the shared prefix,
shorter-is-less tie-break), so sorting handles matches sorting the owned
strings. -/
theorem c3_ordering_consistency (st : AllocState) (a b : List Nat) (hR : Reachable st)
    (hla : a.length + 1 ≤ kMaxStringLength) (hlb : b.length + 1 ≤ kMaxStringLength) :
    ∃ ha st1 hb st2, AllocString a true st = .ok ha st1 ∧
      AllocString b true st1 = .ok hb st2 ∧
      Compare st2.mem ha hb = specLexCompare a b := by
  obtain ⟨ha, st1, hok1⟩ := AllocString_succeeds a st hla
  obtain ⟨hb, st2, hok2⟩ := AllocString_succeeds b st1 hlb
  refine ⟨ha, st1, hb, st2, hok1, hok2, ?_⟩
  have hG1 : GoodState st1 := reachable_good st1 (Reachable.step hR hok1)
  obtain ⟨hL1, hR1, _, hup1⟩ := AllocString_ok_handle a true st ha st1 hok1
  obtain ⟨hL2, hR2, _, _⟩ := AllocString_ok_handle b true st1 hb st2 hok2
  have hRa2 : ReadsAs st2.mem ha.ptr a := by
    intro i hi
    have hx : ha.ptr + i * sizeofWchar < st1.pNext := by
      simp only [sizeofWchar] at hup1 ⊢
      omega
    have hpres := AllocString_ok_preserves b true st1 hb st2 hG1 hok2
      (ha.ptr + i * sizeofWchar) (Or.inl hx)
    rw [hpres.1]
    exact hR1 i hi
  cases ha with
  | mk pa la =>
    cases hb with
    | mk pb lb =>
      have h1 : la = a.length := hL1
      have h2 : lb = b.length := hL2
      subst h1
      subst h2
      exact Compare_eq_specLexCompare a b st2.mem pa pb hRa2 hR2

theorem c3_ordering_consistency_witness :
    Reachable initState ∧
    ([66, 65] : List Nat).length + 1 ≤ kMaxStringLength ∧
    ([66] : List Nat).length + 1 ≤ kMaxStringLength ∧
    (∃ ha st1 hb st2, AllocString [66, 65] true initState = .ok ha st1 ∧
      AllocString [66] true st1 = .ok hb st2 ∧
      Compare st2.mem ha hb = specLexCompare [66, 65] [66]) :=
  ⟨.init, by decide, by decide,
   c3_ordering_consistency initState [66, 65] [66] .init (by decide) (by decide)⟩

/-- Claim C4: in a state with an active chunk, a request whose needed slots
(`len + 1` for the terminator) exactly fill the space between cursor and
limit succeeds by carving — no new chunk, cursor ends at the limit — while
a request needing one slot more than remains triggers the creation of
exactly one new chunk. -/
theorem c4_carve_grow_boundary (st : AllocState) (s t : List Nat)
    (_hactive : st.chunks ≠ [])
    (hfit : st.pNext + (s.length + 1) * sizeofWchar = st.pLimit)
    (hover : st.pNext + (t.length + 1) * sizeofWchar = st.pLimit + sizeofWchar)
    (htlen : t.length + 1 ≤ kMaxStringLength) :
    (∃ h st', AllocString s true st = .ok h st' ∧
      st'.chunks = st.chunks ∧ st'.pNext = st.pLimit) ∧
    (∃ h st', AllocString t true st = .ok h st' ∧
      st'.chunks.length = st.chunks.length + 1) := by
  constructor
  · have hc : st.pNext + (s.length + 1) * sizeofWchar ≤ st.pLimit := le_of_eq hfit
    exact ⟨_, _, AllocString_of_mem_ok s true st _ _
      (AllocMemory_carve (s.length + 1) true st hc), rfl, hfit⟩
  · have hc : ¬ st.pNext + (t.length + 1) * sizeofWchar ≤ st.pLimit := by
      simp only [sizeofWchar] at hover ⊢
      omega
    refine ⟨_, _, AllocString_of_mem_ok t true st _ _
      (AllocMemory_grow (t.length + 1) st hc (by omega)), ?_⟩
    simp [growCarveState, growState]

/-- A state with one partly filled chunk, used to exercise the exact-fit
and one-over boundaries of claim C4. -/
def chunkDemoState : AllocState :=
  { mem := fun _ => 0
    pNext := 24
    pLimit := 32
    chunks := [(8, 600000)]
    freshAddr := 608 }

theorem c4_carve_grow_boundary_witness :
    chunkDemoState.chunks ≠ [] ∧
    chunkDemoState.pNext + (([65, 66, 67] : List Nat).length + 1) * sizeofWchar =
      chunkDemoState.pLimit ∧
    chunkDemoState.pNext + (([65, 66, 67, 68] : List Nat).length + 1) * sizeofWchar =
      chunkDemoState.pLimit + sizeofWchar ∧
    ([65, 66, 67, 68] : List Nat).length + 1 ≤ kMaxStringLength ∧
    ((∃ h st', AllocString [65, 66, 67] true chunkDemoState = .ok h st' ∧
        st'.chunks = chunkDemoState.chunks ∧ st'.pNext = chunkDemoState.pLimit) ∧
     (∃ h st', AllocString [65, 66, 67, 68] true chunkDemoState = .ok h st' ∧
        st'.chunks.length = chunkDemoState.chunks.length + 1)) :=
  ⟨by decide, by decide, by decide, by decide,
   c4_carve_grow_boundary chunkDemoState [65, 66, 67] [65, 66, 67, 68]
     (by decide) (by decide) (by decide) (by decide)⟩

/-- Claim C5: every `AllocString` call is atomic — it either fully succeeds
(the characters and the terminator are stored, the handle has the right
length) or fully fails with the allocator's observable state exactly as
before, on both the too-large failure and the provider failure; and it
always terminates in one of these outcomes. -/
theorem c5_allocation_atomicity (s : List Nat) (mallocOk : Bool) (st : AllocState) :
    (∀ st', (AllocString s mallocOk st = .tooLarge st' ∨
        AllocString s mallocOk st = .outOfMem st') → st' = st) ∧
    (∀ h st', AllocString s mallocOk st = .ok h st' →
      h.Length = s.length ∧ ReadsAs st'.mem h.ptr s ∧
      st'.mem (h.ptr + s.length * sizeofWchar) = 0) ∧
    AllocString s mallocOk st ≠ .diverge := by
  refine ⟨fun st' herr => AllocString_err_state s mallocOk st st' herr, ?_,
    AllocString_ne_diverge s mallocOk st⟩
  intro h st' hok
  obtain ⟨hL, hRd, hN, _⟩ := AllocString_ok_handle s mallocOk st h st' hok
  exact ⟨hL, hRd, hN⟩

theorem c5_allocation_atomicity_witness :
    AllocString ([] : List Nat) false initState = .outOfMem initState ∧
    initState = initState := by
  have hmem : AllocString ([] : List Nat) false initState = .outOfMem initState :=
    AllocString_of_mem_outOfMem [] false initState initState
      (AllocMemory_outOfMem _ initState (by decide) (by decide))
  exact ⟨hmem,
    (c5_allocation_atomicity [] false initState).1 initState (Or.inr hmem)⟩

/-- Claim C6: `Clear` restores the initial empty shape — empty chunk list,
null cursor and limit — and a subsequent `AllocString` behaves like the
same call on a newly constructed allocator: same outcome kind, and on
success the first request creates exactly one chunk (no residual chunks)
holding the requested string. -/
theorem c6_clear_resets (st : AllocState) (s : List Nat) (mallocOk : Bool) :
    (Clear st).chunks = [] ∧ (Clear st).pNext = 0 ∧ (Clear st).pLimit = 0 ∧
    (AllocString s mallocOk (Clear st)).kind = (AllocString s mallocOk initState).kind ∧
    (∀ h st', AllocString s mallocOk (Clear st) = .ok h st' →
      st'.chunks.length = 1 ∧ ToStdString st'.mem h = s) := by
  refine ⟨rfl, rfl, rfl, AllocString_kind_null s mallocOk (Clear st) rfl rfl, ?_⟩
  intro h st' hok
  constructor
  · obtain ⟨ptr, st1, hm, _, hst⟩ := AllocString_ok_cases s mallocOk (Clear st) h st' hok
    rcases AllocMemory_ok_cases _ _ _ _ _ hm with ⟨hcv, _, _⟩ | ⟨_, _, _, _, hs1⟩
    · exfalso
      simp only [Clear, sizeofWchar] at hcv
      omega
    · subst hst
      subst hs1
      simp [growCarveState, growState, Clear]
  · obtain ⟨hL, hRd, _, _⟩ := AllocString_ok_handle s mallocOk (Clear st) h st' hok
    cases h with
    | mk p l =>
      have hl : l = s.length := hL
      subst hl
      exact ToStdString_of_readsAs st'.mem p s hRd

theorem c6_clear_resets_witness :
    (Clear initState).chunks = [] ∧
    (AllocString [65] true (Clear initState)).kind =
      (AllocString [65] true initState).kind :=
  ⟨(c6_clear_resets initState [65] true).1,
   (c6_clear_resets initState [65] true).2.2.2.1⟩

/-- Claim C7: moving a handle (by move construction, or by move assignment
onto a distinct object) transfers the pointer and length unchanged to the
destination and leaves the source as a valid empty handle: `IsEmpty`, null
data reference, and an empty owned copy. -/
theorem c7_move_semantics (h h2 : PoolString) :
    moveConstruct h = (h, { ptr := 0, length := 0 }) ∧
    moveAssign h2 h false = (h, { ptr := 0, length := 0 }) ∧
    (moveConstruct h).2.IsEmpty = true ∧ (moveConstruct h).2.ptr = 0 ∧
    (moveAssign h2 h false).2.IsEmpty = true ∧ (moveAssign h2 h false).2.ptr = 0 ∧
    (∀ mem, ToStdString mem (moveConstruct h).2 = []) :=
  ⟨rfl, rfl, rfl, rfl, rfl, rfl, fun _ => rfl⟩

end StringPool
